import Mathlib

/-!
Verification development for `leaflet.inaflowsviewer.js` — a Leaflet control
that animates BMKG INAFLOWS sea-current tiles.

The definitions below are a shallow embedding of the source module:
instants are modelled as integer milliseconds since the Unix epoch
(matching the JavaScript `Date` value), the controller state is an explicit
record, and the DOM/network side effects (slider element, timestamp label,
tile fetches) are outside the model.  Field accessors such as
`getUTCHours()` are floor-based on the millisecond value, which is exactly
Lean's `Int` euclidean `/` and `%` for positive literal divisors.
-/

namespace Inaflows

/-! ## Time arithmetic (milliseconds since the Unix epoch) -/

def msPerMinute : Int := 60000

def msPerHour : Int := 3600000

def msPerDay : Int := 86400000

/-- `date.getUTCHours()` for an epoch-millisecond value. -/
def getUTCHoursMs (t : Int) : Int := t / msPerHour % 24

/-- `Date.UTC(Y, M, D, 0, 0, 0)` for the calendar day containing `t`:
the start of `t`'s UTC day. -/
def dayStartMs (t : Int) : Int := t - t % msPerDay

/-- Shallow embedding of `_snap3hUTC` (source lines 511–517): reads the UTC
hour, picks the slot by the ascending `h <= 3 ? 3 : h <= 6 ? 6 : ...` chain,
builds `Date.UTC(Y, M, D, slot % 24, 0, 0)` and adds one day when the slot
is 24 (`out.setUTCDate(out.getUTCDate() + 1)` adds exactly 86400000 ms in
UTC terms). -/
def snap3hUTC (t : Int) : Int :=
  let h := getUTCHoursMs t
  let slot : Int :=
    if h ≤ 3 then 3
    else if h ≤ 6 then 6
    else if h ≤ 9 then 9
    else if h ≤ 12 then 12
    else if h ≤ 15 then 15
    else if h ≤ 18 then 18
    else if h ≤ 21 then 21
    else 24
  let out := dayStartMs t + (slot % 24) * msPerHour
  if slot = 24 then out + msPerDay else out

/-- Shallow embedding of `_buildTimes` (source lines 519–526): anchors at
`snap3hUTC anchor` and pushes `end - i * stepHours * 3600 * 1000` for
`i = frames - 1` down to `0`. -/
def buildTimes (frames stepHours : Nat) (anchor : Int) : List Int :=
  let e := snap3hUTC anchor
  (List.range frames).reverse.map (fun (i : Nat) => e - (i : Int) * (stepHours : Int) * 3600000)

/-- Modelled from the spec's words (claim C5): "rounds up to the next
boundary that is a multiple of cadenceHours" — with the default 3-hour
cadence, the result must be the least 3-hour-aligned instant that is
greater than or equal to the input. -/
def snapRoundsUpAt (t : Int) : Prop :=
  snap3hUTC t % 10800000 = 0 ∧ t ≤ snap3hUTC t ∧
    ∀ b : Int, b % 10800000 = 0 → t ≤ b → snap3hUTC t ≤ b

/-! ## Calendar conversion (the part of `Date.UTC` the decoders rely on)

`daysFromCivil` is the standard proleptic-Gregorian civil-date to day-number
conversion used by every `Date.UTC(Y, M, D, ...)` call in the module;
`civilFromDays` is its inverse, used where the code reads `getUTCDate()` /
`getUTCMonth()` / `getUTCFullYear()` back out of a computed instant. -/

def daysFromCivil (y m d : Int) : Int :=
  let y1 := if m ≤ 2 then y - 1 else y
  let era := y1 / 400
  let yoe := y1 - era * 400
  let doy := (153 * (if 2 < m then m - 3 else m + 9) + 2) / 5 + d - 1
  let doe := yoe * 365 + yoe / 4 - yoe / 100 + doy
  era * 146097 + doe - 719468

def civilFromDays (z0 : Int) : Int × Int × Int :=
  let z := z0 + 719468
  let era := z / 146097
  let doe := z - era * 146097
  let yoe := (doe - doe / 1460 + doe / 36524 - doe / 146096) / 365
  let y := yoe + era * 400
  let doy := doe - (365 * yoe + yoe / 4 - yoe / 100)
  let mp := (5 * doy + 2) / 153
  let d := doy - (153 * mp + 2) / 5 + 1
  let m := mp + (if mp < 10 then 3 else -9)
  (y + (if m ≤ 2 then 1 else 0), m, d)

/-- `Date.UTC(y, m, d, hh, mm, 0)` with ECMAScript argument normalization:
a year argument in `[0, 99]` means `1900 + year`, an out-of-range (0-based)
month argument carries into the year, and the day argument is an offset
from day 1 of that month. -/
def dateUTCNorm (y m d hh mm : Int) : Int :=
  let y1 := if 0 ≤ y ∧ y ≤ 99 then y + 1900 else y
  let ym := y1 + m / 12
  let mn := m % 12
  (daysFromCivil ym (mn + 1) 1 + (d - 1)) * msPerDay + hh * msPerHour + mm * msPerMinute

/-! ## TimeKey codec -/

/-- `String(n).padStart(2, '0')` from the `pad` helper (source line 22). -/
def pad2 (n : Nat) : String := if n < 10 then "0" ++ toString n else toString n

/-- `key.slice(a, b)` for the ASCII keys this module manipulates. -/
def jsSlice (s : String) (a b : Nat) : String :=
  ((s.toList.drop a).take (b - a)).asString

/-- Value of a string of decimal digits, most significant first. -/
def digitsToNat (cs : List Char) : Nat :=
  cs.foldl (fun a c => 10 * a + (c.toNat - 48)) 0

/-- Decimal parse of a non-empty all-digit character list; `none`
otherwise. -/
def parseDigits (cs : List Char) : Option Nat :=
  match cs with
  | [] => none
  | _ => if cs.all (fun c => c.isDigit) then some (digitsToNat cs) else none

/-- JavaScript unary `+` applied to a slice of a key: the empty string
coerces to `0`, a digit string to its value, anything else to NaN
(modelled as `none`).  This covers exactly the strings the module feeds
it (slices of `YYYYMMDDHHMM` keys). -/
def jsToNum (s : String) : Option Int :=
  if s.toList = [] then some 0
  else match parseDigits s.toList with
       | some n => some (n : Int)
       | none => none

/-- Shallow embedding of `_keyToMs` (source lines 495–499): slices the key
into five fields, coerces each with unary `+`, and returns
`Date.UTC(Y, M - 1, D, h, m, 0)`.  There is no length check: a short key
yields empty slices, which coerce to `0`.  A non-numeric slice makes the
result NaN (`none`). -/
def keyToMs (k : String) : Option Int :=
  match jsToNum (jsSlice k 0 4), jsToNum (jsSlice k 4 6), jsToNum (jsSlice k 6 8),
        jsToNum (jsSlice k 8 10), jsToNum (jsSlice k 10 12) with
  | some y, some mo, some d, some hh, some mm => some (dateUTCNorm y (mo - 1) d hh mm)
  | _, _, _, _, _ => none

def dayNames : List String :=
  ["Minggu", "Senin", "Selasa", "Rabu", "Kamis", "Jumat", "Sabtu"]

def monthNames : List String :=
  ["Jan", "Feb", "Mar", "Apr", "Mei", "Jun", "Jul", "Agu", "Sep", "Okt", "Nov", "Des"]

/-- Shallow embedding of `parseLabel` (source lines 29–53): returns the
empty string unless the key is a string of length at least 12; otherwise
decodes the five fields, shifts by +7 hours (WIB) and formats
`"<day>, <DD> <mon> <YYYY> <hh>:<mm> WIB"` from the UTC fields of the
shifted instant.  When a field slice is not numeric the JavaScript code
renders the NaN date, producing the fixed junk label reproduced below. -/
def parseLabel (key : String) : String :=
  if 12 ≤ key.length then
    match jsToNum (jsSlice key 0 4), jsToNum (jsSlice key 4 6), jsToNum (jsSlice key 6 8),
          jsToNum (jsSlice key 8 10), jsToNum (jsSlice key 10 12) with
    | some y, some mo, some d, some hh, some mm =>
        let wib := dateUTCNorm y (mo - 1) d hh mm + 7 * msPerHour
        let c := civilFromDays (wib / msPerDay)
        let dayName := dayNames.getD ((wib / msPerDay + 4) % 7).toNat ""
        let monthName := monthNames.getD (c.2.1 - 1).toNat ""
        dayName ++ ", " ++ pad2 c.2.2.toNat ++ " " ++ monthName ++ " " ++ toString c.1 ++ " " ++
          pad2 (wib / msPerHour % 24).toNat ++ ":" ++ pad2 (wib / msPerMinute % 60).toNat ++ " WIB"
    | _, _, _, _, _ => "undefined, NaN undefined NaN NaN:NaN WIB"
  else ""

/-! ## Model-run resolution (`_getLatestModelrun`, source lines 475–492) -/

/-- Outcome of `fetch(endpoint)` followed by `res.json()` and the
`json[model]` lookup: either some stage threw (network failure or JSON
parse failure), or it produced the value at the model key (`none` when the
key is absent). -/
inductive FetchOutcome where
  | fetchError : FetchOutcome
  | ok : Option (List String) → FetchOutcome

/-- The catch-branch fallback `<UTC year><UTC month><UTC day>0000` built
from the resolution-time instant (`nowM` is the 1-based month, matching
`getUTCMonth() + 1`). -/
def fallbackRun (nowY nowM nowD : Nat) : String :=
  toString nowY ++ pad2 nowM ++ pad2 nowD ++ "0000"

/-- Re-encoding of one ISO timestamp:
`new Date(iso)` followed by
`` `${getUTCFullYear()}${pad(getUTCMonth()+1)}${pad(getUTCDate())}${pad(getUTCHours())}${pad(getUTCMinutes())}` ``.
For the endpoint's canonical `YYYY-MM-DDTHH:MM:SSZ` strings the UTC fields
are read positionally. -/
def isoToKey (s : String) : String :=
  let y := (parseDigits ((s.toList.drop 0).take 4)).getD 0
  let mo := (parseDigits ((s.toList.drop 5).take 2)).getD 0
  let d := (parseDigits ((s.toList.drop 8).take 2)).getD 0
  let hh := (parseDigits ((s.toList.drop 11).take 2)).getD 0
  let mm := (parseDigits ((s.toList.drop 14).take 2)).getD 0
  toString y ++ pad2 mo ++ pad2 d ++ pad2 hh ++ pad2 mm

/-- JavaScript's default string comparison (used by `Array.prototype.sort`
with no comparator): lexicographic on code units, which for the ASCII
timestamps at hand is lexicographic on code points. -/
def lexLeb : List Char → List Char → Bool
  | [], _ => true
  | _ :: _, [] => false
  | a :: as, b :: bs =>
      if a.toNat < b.toNat then true
      else if b.toNat < a.toNat then false
      else lexLeb as bs

def strLe (s t : String) : Bool := lexLeb s.toList t.toList

/-- One insertion step of the sort. -/
def sortInsert (x : String) : List String → List String
  | [] => [x]
  | y :: ys => if strLe x y then x :: y :: ys else y :: sortInsert x ys

/-- `runs.slice().sort()` — a stable sort of the copied array under the
default lexicographic comparison. -/
def jsSortStrings : List String → List String
  | [] => []
  | x :: xs => sortInsert x (jsSortStrings xs)

/-- Shallow embedding of `_getLatestModelrun` (source lines 475–492).
The `throw` on a missing or empty run list lands in the same `catch` as a
network or JSON error, so all three produce the fallback.  On success the
code copies the list, sorts it (JavaScript default string sort =
lexicographic), pops the last element and re-encodes it. -/
def getLatestModelrun (outcome : FetchOutcome) (nowY nowM nowD : Nat) : String :=
  match outcome with
  | .fetchError => fallbackRun nowY nowM nowD
  | .ok none => fallbackRun nowY nowM nowD
  | .ok (some runs) =>
      if runs.isEmpty then fallbackRun nowY nowM nowD
      else isoToKey ((jsSortStrings runs).getLastD "")

/-! ## Controller state (`L.Control.inaflowsviewer`)

One tile layer (`L.tileLayer(...)`) is a `LayerHandle`: its current
opacity and whether it is mounted on the map (`map.addLayer`).  The two
per-timestamp caches `layersMag` / `layersArr` are total maps from key to
optional handle.  Opacities are rationals (the source uses 0.001, 0 and
the configured values). -/

structure LayerHandle where
  opacity : ℚ
  mounted : Bool
deriving DecidableEq

structure ViewerState where
  timestamps : List String
  animationPosition : Nat
  layersMag : String → Option LayerHandle
  layersArr : String → Option LayerHandle
  opacity : ℚ
  arrowsOpacity : ℚ
  showArrows : Bool

/-- `cache[key] = handle` on one of the two layer caches. -/
def putLayer (f : String → Option LayerHandle) (key : String) (h : LayerHandle) :
    String → Option LayerHandle :=
  fun k => if k = key then some h else f k

/-- First half of `_ensureLayers` for the magnitude cache (source lines
303–310): create the layer at opacity 0.001 when absent. -/
def ensureMag (st : ViewerState) (key : String) : ViewerState :=
  if (st.layersMag key).isNone then
    { st with layersMag := putLayer st.layersMag key ⟨1 / 1000, false⟩ }
  else st

/-- `if (!map.hasLayer(this.layersMag[timeKey])) map.addLayer(...)`
(source line 311). -/
def mountMag (st : ViewerState) (key : String) : ViewerState :=
  match st.layersMag key with
  | some h => if h.mounted then st else { st with layersMag := putLayer st.layersMag key ⟨h.opacity, true⟩ }
  | none => st

/-- Arrow-cache half of `_ensureLayers` (source lines 314–321): arrow
layers are created directly at the configured arrow opacity. -/
def ensureArr (st : ViewerState) (key : String) : ViewerState :=
  if (st.layersArr key).isNone then
    { st with layersArr := putLayer st.layersArr key ⟨st.arrowsOpacity, false⟩ }
  else st

/-- `if (!map.hasLayer(this.layersArr[timeKey])) map.addLayer(...)`
(source line 322). -/
def mountArr (st : ViewerState) (key : String) : ViewerState :=
  match st.layersArr key with
  | some h => if h.mounted then st else { st with layersArr := putLayer st.layersArr key ⟨h.opacity, true⟩ }
  | none => st

/-- Shallow embedding of `_ensureLayers` (source lines 300–324). -/
def ensureLayers (st : ViewerState) (key : String) : ViewerState :=
  let st2 := mountMag (ensureMag st key) key
  if st.showArrows then mountArr (ensureArr st2 key) key else st2

/-- `this.layersMag[prevKey].setOpacity(0)` (source line 346), guarded by
the cache lookup; a no-op when the key has no cached layer. -/
def fadeOutMag (st : ViewerState) (key : String) : ViewerState :=
  match st.layersMag key with
  | some h => { st with layersMag := putLayer st.layersMag key ⟨0, h.mounted⟩ }
  | none => st

/-- `this.layersMag[nextKey].setOpacity(this.options.opacity)` (source
line 347), with the same existence guard. -/
def setVisibleMag (st : ViewerState) (key : String) : ViewerState :=
  match st.layersMag key with
  | some h => { st with layersMag := putLayer st.layersMag key ⟨st.opacity, h.mounted⟩ }
  | none => st

/-- Shallow embedding of `changePosition` (source lines 327–352).  The two
`while` wrap loops subtract/add the length until the index is in
`[0, length)`, which for a length ≥ 1 is exactly the euclidean remainder.
`prevKey` is `this.timestamps[this.animationPosition]` (`undefined` when
out of range, and the `if (prevKey && ...)` guard also rejects the falsy
empty string).  The slider/label DOM writes are outside the model. -/
def changePosition (st : ViewerState) (pos : Int) (preloadOnly : Bool) : ViewerState :=
  if st.timestamps.length = 0 then st
  else
    let p : Nat := (pos.emod (st.timestamps.length : Int)).toNat
    let prevKey? := st.timestamps[st.animationPosition]?
    let nextKey := (st.timestamps[p]?).getD ""
    let st1 := ensureLayers st nextKey
    if preloadOnly then st1
    else
      let st2 := { st1 with animationPosition := p }
      let st3 :=
        match prevKey? with
        | some pk => if pk = "" then st2 else fadeOutMag st2 pk
        | none => st2
      setVisibleMag st3 nextKey

/-- Shallow embedding of `_preload` (source lines 360–362). -/
def preload (st : ViewerState) (pos : Int) : ViewerState :=
  changePosition st pos true

/-- Shallow embedding of `showFrame` (source lines 354–358): the direction
is computed from the pre-call position, the visible change is committed
first, and the prefetch runs on the resulting state. -/
def showFrame (st : ViewerState) (nextPos : Int) : ViewerState :=
  let dir : Int := if 0 < nextPos - (st.animationPosition : Int) then 1 else -1
  let st1 := changePosition st nextPos false
  preload st1 (nextPos + dir)

/-- The key of the frame currently recorded as visible. -/
def currentKey (st : ViewerState) : String :=
  (st.timestamps[st.animationPosition]?).getD ""

/-- The key `changePosition` resolves a raw index to (after wrapping). -/
def targetKeyOf (st : ViewerState) (pos : Int) : String :=
  (st.timestamps[(pos.emod (st.timestamps.length : Int)).toNat]?).getD ""

/-- Configured opacity of the cached magnitude layer at `key`, if any. -/
def magOpacity (st : ViewerState) (key : String) : Option ℚ :=
  (st.layersMag key).map (·.opacity)

/-- Modelled from the spec's words (claim C8): direction =
`sign(targetIndex - position)` "defaulting to forward when stationary". -/
def showFrameSpecClaimed (st : ViewerState) (nextPos : Int) : ViewerState :=
  let dir : Int :=
    if (st.animationPosition : Int) < nextPos then 1
    else if nextPos < (st.animationPosition : Int) then -1
    else 1
  preload (changePosition st nextPos false) (nextPos + dir)

/-- The amended composition for claim C8: the code's direction is `+1`
exactly when the target is strictly ahead, and `-1` otherwise — including
the stationary case. -/
def showFrameSpecAmended (st : ViewerState) (nextPos : Int) : ViewerState :=
  let dir : Int := if (st.animationPosition : Int) < nextPos then 1 else -1
  preload (changePosition st nextPos false) (nextPos + dir)

/-! ## Concrete states used by witnesses and counterexamples -/

/-- Two-frame steady state: frame "A" is visible at opacity 1/2. -/
def stPair : ViewerState where
  timestamps := ["A", "B"]
  animationPosition := 0
  layersMag := fun k => if k = "A" then some ⟨1 / 2, true⟩ else none
  layersArr := fun _ => none
  opacity := 1 / 2
  arrowsOpacity := 9 / 10
  showArrows := false

/-- One-frame steady state: the single frame "A" is visible. -/
def stSingle : ViewerState where
  timestamps := ["A"]
  animationPosition := 0
  layersMag := fun k => if k = "A" then some ⟨1 / 2, true⟩ else none
  layersArr := fun _ => none
  opacity := 1 / 2
  arrowsOpacity := 9 / 10
  showArrows := false

/-- Three-frame state with an empty cache, position 0. -/
def stTriple : ViewerState where
  timestamps := ["A", "B", "C"]
  animationPosition := 0
  layersMag := fun _ => none
  layersArr := fun _ => none
  opacity := 1 / 2
  arrowsOpacity := 9 / 10
  showArrows := false

/-- A state with an empty frame sequence. -/
def stEmpty : ViewerState where
  timestamps := []
  animationPosition := 0
  layersMag := fun _ => none
  layersArr := fun _ => none
  opacity := 1 / 2
  arrowsOpacity := 9 / 10
  showArrows := true

/-! ## Theorems -/

/-- Closed form of `_snap3hUTC`: the slot chain computes
`3 * max 1 ⌈hour / 3⌉` (hour 0 is caught by the first `h <= 3` test and
snaps to 3, not 0), and the `slot % 24` plus add-one-day dance is the same
as adding `slot` hours to the day start. -/
theorem snap3hUTC_closed (t : Int) :
    snap3hUTC t = dayStartMs t + 3 * max 1 ((getUTCHoursMs t + 2) / 3) * msPerHour := by
  simp only [snap3hUTC, getUTCHoursMs, dayStartMs, msPerHour, msPerDay]
  split_ifs <;> omega

/-- C5: REFUTED as stated.  At 1970-01-01T03:45:00Z (13500000 ms) the code
returns 03:00 of the same day, which is *before* the instant, so
`_snap3hUTC` does not round up to the next 3-hour boundary. -/
theorem snap3hUTC_not_roundUp : ¬ snapRoundsUpAt 13500000 := by
  intro h
  exact absurd h.2.1 (by decide)

/-- C5 (amended): `_snap3hUTC` works at hour granularity.  It equals the
day start plus `3 * max 1 ⌈h / 3⌉` hours where `h` is the UTC hour —
minutes and seconds are discarded, so an instant whose minutes lie past a
boundary hour snaps back to that boundary's start; an instant exactly on a
boundary with a non-zero hour snaps to itself (midnight snaps forward to
03:00, and hours 22–23 roll into the next UTC day). -/
theorem snap3hUTC_hour_granularity (t : Int) :
    snap3hUTC t = dayStartMs t + 3 * max 1 ((getUTCHoursMs t + 2) / 3) * msPerHour ∧
    (t % 10800000 = 0 → getUTCHoursMs t ≠ 0 → snap3hUTC t = t) := by
  refine ⟨snap3hUTC_closed t, fun h0 hne => ?_⟩
  rw [snap3hUTC_closed t]
  simp only [getUTCHoursMs, dayStartMs, msPerHour, msPerDay] at *
  omega

/-- C5 witness: 03:00 is exactly on a boundary with non-zero hour and is a
fixed point of the snap. -/
theorem snap3hUTC_hour_granularity_witness :
    (10800000 : Int) % 10800000 = 0 ∧ getUTCHoursMs 10800000 ≠ 0 ∧
      snap3hUTC 10800000 = 10800000 :=
  ⟨by decide, by decide, (snap3hUTC_hour_granularity 10800000).2 (by decide) (by decide)⟩

/-- C6: REFUTED as stated.  At 22:00 the snap lands on the next midnight,
and snapping again moves that to 03:00, so the function is not idempotent
on all instants. -/
theorem snap3hUTC_not_idempotent :
    snap3hUTC (snap3hUTC 79200000) ≠ snap3hUTC 79200000 := by
  decide

/-- C6 (amended): `_snap3hUTC` is idempotent on every instant whose UTC
hour is at most 21 (equivalently, whenever the first snap does not land on
midnight of the next day). -/
theorem snap3hUTC_idem_of_hour_le (t : Int) (h : getUTCHoursMs t ≤ 21) :
    snap3hUTC (snap3hUTC t) = snap3hUTC t := by
  have h1 := snap3hUTC_closed t
  have h2 := snap3hUTC_closed (snap3hUTC t)
  simp only [getUTCHoursMs, dayStartMs, msPerHour, msPerDay] at *
  omega

/-- C6 witness: idempotence at the epoch instant. -/
theorem snap3hUTC_idem_witness :
    getUTCHoursMs 0 ≤ 21 ∧ snap3hUTC (snap3hUTC 0) = snap3hUTC 0 :=
  ⟨by decide, snap3hUTC_idem_of_hour_le 0 (by decide)⟩

/-- C7: `_buildTimes` returns exactly `frames` strictly ascending (hence
unique) instants whose last element is `snap3hUTC anchor`; `frames = 0`
yields the empty sequence. -/
theorem buildTimes_spec (frames stepHours : Nat) (anchor : Int) (hs : 1 ≤ stepHours) :
    (buildTimes frames stepHours anchor).length = frames ∧
    buildTimes 0 stepHours anchor = [] ∧
    List.Chain' (· < ·) (buildTimes frames stepHours anchor) ∧
    (1 ≤ frames → (buildTimes frames stepHours anchor).getLast? = some (snap3hUTC anchor)) := by
  refine ⟨by simp [buildTimes], rfl, ?_, ?_⟩
  · simp only [buildTimes]
    rw [List.chain'_map, List.chain'_reverse]
    cases frames with
    | zero => simp
    | succ n =>
        rw [List.chain'_range_succ]
        intro m _
        have hc : (0 : Int) < (stepHours : Int) * 3600000 := by positivity
        simp only [flip]
        push_cast
        nlinarith
  · intro hf
    simp only [buildTimes]
    rw [List.map_reverse, List.getLast?_reverse, List.head?_map]
    cases frames with
    | zero => omega
    | succ n =>
        rw [List.head?_eq_head (by simp [List.range_eq_nil]), List.head_range]
        simp

/-- C7 witness: three frames at 3-hour cadence from the epoch anchor. -/
theorem buildTimes_spec_witness :
    (1 : Nat) ≤ 3 ∧ (buildTimes 3 3 0).length = 3 ∧
      (buildTimes 3 3 0).getLast? = some (snap3hUTC 0) :=
  ⟨by decide, (buildTimes_spec 3 3 0 (by decide)).1,
    (buildTimes_spec 3 3 0 (by decide)).2.2.2 (by decide)⟩

/-! ### Order laws for the JavaScript string comparison -/

theorem lexLeb_refl (a : List Char) : lexLeb a a = true := by
  induction a with
  | nil => rfl
  | cons c cs ih => simp [lexLeb, ih]

theorem lexLeb_total (a b : List Char) : lexLeb a b = true ∨ lexLeb b a = true := by
  induction a generalizing b with
  | nil => left; rfl
  | cons c cs ih =>
      cases b with
      | nil => right; rfl
      | cons d ds =>
          rcases Nat.lt_trichotomy c.toNat d.toNat with h | h | h
          · left; simp [lexLeb, h]
          · rcases ih ds with h2 | h2
            · left; simp [lexLeb, h, h2]
            · right; simp [lexLeb, h.symm, h2]
          · right; simp [lexLeb, h]

theorem lexLeb_trans (a b c : List Char) (h1 : lexLeb a b = true)
    (h2 : lexLeb b c = true) : lexLeb a c = true := by
  induction a generalizing b c with
  | nil => rfl
  | cons x xs ih =>
      cases b with
      | nil => simp [lexLeb] at h1
      | cons y ys =>
          cases c with
          | nil => simp [lexLeb] at h2
          | cons z zs =>
              simp only [lexLeb] at h1 h2 ⊢
              by_cases hxz : x.toNat < z.toNat
              · simp [hxz]
              · rw [if_neg hxz]
                by_cases hzx : z.toNat < x.toNat
                · exfalso
                  by_cases hxy : x.toNat < y.toNat
                  · by_cases hyz : y.toNat < z.toNat
                    · omega
                    · rw [if_neg hyz] at h2
                      by_cases hzy : z.toNat < y.toNat
                      · simp [hzy] at h2
                      · omega
                  · rw [if_neg hxy] at h1
                    by_cases hyx : y.toNat < x.toNat
                    · simp [hyx] at h1
                    · by_cases hyz : y.toNat < z.toNat
                      · omega
                      · rw [if_neg hyz] at h2
                        by_cases hzy : z.toNat < y.toNat
                        · simp [hzy] at h2
                        · omega
                · rw [if_neg hzx]
                  by_cases hxy : x.toNat < y.toNat
                  · exfalso
                    by_cases hyz : y.toNat < z.toNat
                    · omega
                    · rw [if_neg hyz] at h2
                      by_cases hzy : z.toNat < y.toNat
                      · simp [hzy] at h2
                      · omega
                  · rw [if_neg hxy] at h1
                    by_cases hyx : y.toNat < x.toNat
                    · simp [hyx] at h1
                    · rw [if_neg hyx] at h1
                      by_cases hyz : y.toNat < z.toNat
                      · exfalso
                        omega
                      · rw [if_neg hyz] at h2
                        by_cases hzy : z.toNat < y.toNat
                        · simp [hzy] at h2
                        · rw [if_neg hzy] at h2
                          exact ih ys zs h1 h2

theorem lexLeb_antisymm (a b : List Char) (h1 : lexLeb a b = true)
    (h2 : lexLeb b a = true) : a = b := by
  induction a generalizing b with
  | nil =>
      cases b with
      | nil => rfl
      | cons d ds => simp [lexLeb] at h2
  | cons c cs ih =>
      cases b with
      | nil => simp [lexLeb] at h1
      | cons d ds =>
          simp only [lexLeb] at h1 h2
          by_cases hcd : c.toNat < d.toNat
          · simp [hcd, Nat.lt_asymm hcd] at h2
          · by_cases hdc : d.toNat < c.toNat
            · simp [hcd, hdc] at h1
            · rw [if_neg hcd, if_neg hdc] at h1
              rw [if_neg hdc, if_neg hcd] at h2
              have h4 : c.toNat = d.toNat := by omega
              have h3 : c = d := Char.ext (UInt32.toNat.inj h4)
              rw [h3, ih ds h1 h2]

theorem strLe_refl (s : String) : strLe s s = true := lexLeb_refl _

theorem strLe_total (s t : String) : strLe s t = true ∨ strLe t s = true :=
  lexLeb_total _ _

theorem strLe_trans (s t u : String) (h1 : strLe s t = true)
    (h2 : strLe t u = true) : strLe s u = true :=
  lexLeb_trans _ _ _ h1 h2

theorem strLe_antisymm (s t : String) (h1 : strLe s t = true)
    (h2 : strLe t s = true) : s = t := by
  have h := lexLeb_antisymm _ _ h1 h2
  cases s
  cases t
  simp only [String.toList] at h
  simp [h]

/-! ### The sort places a maximum last -/

theorem mem_sortInsert (x a : String) (l : List String) :
    a ∈ sortInsert x l ↔ a = x ∨ a ∈ l := by
  induction l with
  | nil => simp [sortInsert]
  | cons y ys ih =>
      simp only [sortInsert]
      split_ifs
      · simp
      · simp only [List.mem_cons, ih]
        tauto

theorem pairwise_sortInsert (x : String) (l : List String)
    (h : l.Pairwise (fun a b => strLe a b = true)) :
    (sortInsert x l).Pairwise (fun a b => strLe a b = true) := by
  induction l with
  | nil => simp [sortInsert]
  | cons y ys ih =>
      rw [List.pairwise_cons] at h
      obtain ⟨hy, hys⟩ := h
      simp only [sortInsert]
      split_ifs with hxy
      · rw [List.pairwise_cons]
        refine ⟨?_, List.pairwise_cons.mpr ⟨hy, hys⟩⟩
        intro z hz
        rcases List.mem_cons.mp hz with rfl | hz2
        · exact hxy
        · exact strLe_trans _ _ _ hxy (hy z hz2)
      · have hyx : strLe y x = true := by
          rcases strLe_total x y with h2 | h2
          · exact absurd h2 hxy
          · exact h2
        rw [List.pairwise_cons]
        refine ⟨?_, ih hys⟩
        intro z hz
        rcases (mem_sortInsert x z ys).mp hz with rfl | hz2
        · exact hyx
        · exact hy z hz2

theorem mem_jsSortStrings (a : String) (l : List String) :
    a ∈ jsSortStrings l ↔ a ∈ l := by
  induction l with
  | nil => simp [jsSortStrings]
  | cons x xs ih => simp [jsSortStrings, mem_sortInsert, ih]

theorem pairwise_jsSortStrings (l : List String) :
    (jsSortStrings l).Pairwise (fun a b => strLe a b = true) := by
  induction l with
  | nil => simp [jsSortStrings]
  | cons x xs ih => exact pairwise_sortInsert x _ ih

theorem sortInsert_ne_nil (x : String) (l : List String) : sortInsert x l ≠ [] := by
  cases l with
  | nil => simp [sortInsert]
  | cons y ys =>
      simp only [sortInsert]
      split_ifs <;> simp

theorem jsSortStrings_ne_nil (l : List String) (h : l ≠ []) :
    jsSortStrings l ≠ [] := by
  cases l with
  | nil => exact absurd rfl h
  | cons x xs => exact sortInsert_ne_nil x _

theorem le_getLast?_of_pairwise (l : List String)
    (h : l.Pairwise (fun a b => strLe a b = true)) (a : String) (ha : a ∈ l)
    (y : String) (hy : l.getLast? = some y) : strLe a y = true := by
  induction l with
  | nil => cases ha
  | cons x xs ih =>
      rw [List.pairwise_cons] at h
      obtain ⟨hx, hxs⟩ := h
      cases xs with
      | nil =>
          have hax : a = x := by simpa using ha
          have hyx : y = x := by simpa [List.getLast?] using hy.symm
          rw [hax, hyx]
          exact strLe_refl x
      | cons z zs =>
          rw [List.getLast?_cons_cons] at hy
          have hymem : y ∈ z :: zs := by
            obtain ⟨hne, heq⟩ := List.mem_getLast?_eq_getLast (l := z :: zs) (x := y)
              (by simp [Option.mem_def, hy])
            rw [heq]
            exact List.getLast_mem hne
          rcases List.mem_cons.mp ha with rfl | ha2
          · exact hx y hymem
          · exact ih hxs ha2 hy

/-- C4: `_getLatestModelrun` never fails.  On a successful fetch with a
non-empty run list it returns the lexicographically maximal ISO timestamp
re-encoded to the 12-character minute key (`sort()` then `pop()` picks the
maximum); on a network/JSON error, a missing model key, or an empty list
it returns the `<UTC year><UTC month><UTC day>0000` fallback built from
the resolution-time instant. -/
theorem getLatestModelrun_spec (runs : List String) (m : String) (y mo d : Nat)
    (hm : m ∈ runs) (hmax : ∀ x ∈ runs, strLe x m = true) :
    getLatestModelrun (.ok (some runs)) y mo d = isoToKey m ∧
    getLatestModelrun .fetchError y mo d = fallbackRun y mo d ∧
    getLatestModelrun (.ok none) y mo d = fallbackRun y mo d ∧
    getLatestModelrun (.ok (some [])) y mo d = fallbackRun y mo d := by
  refine ⟨?_, rfl, rfl, rfl⟩
  have hne : runs ≠ [] := by
    intro h
    rw [h] at hm
    cases hm
  have hsne := jsSortStrings_ne_nil runs hne
  simp only [getLatestModelrun]
  rw [if_neg (by simp [List.isEmpty_iff, hne])]
  obtain ⟨y0, hy0⟩ : ∃ y0, (jsSortStrings runs).getLast? = some y0 := by
    cases hl : (jsSortStrings runs).getLast? with
    | some v => exact ⟨v, rfl⟩
    | none => exact absurd (List.getLast?_eq_none_iff.mp hl) hsne
  have h1 : strLe m y0 = true :=
    le_getLast?_of_pairwise _ (pairwise_jsSortStrings runs) m
      ((mem_jsSortStrings m runs).mpr hm) y0 hy0
  have h2 : strLe y0 m = true := by
    refine hmax y0 ((mem_jsSortStrings y0 runs).mp ?_)
    obtain ⟨hne2, heq⟩ := List.mem_getLast?_eq_getLast (l := jsSortStrings runs) (x := y0)
      (by simp [Option.mem_def, hy0])
    rw [heq]
    exact List.getLast_mem hne2
  have hym : y0 = m := strLe_antisymm y0 m h2 h1
  rw [List.getLastD_eq_getLast?, hy0]
  simp [hym]

/-- C4 witness: the spec's example list resolves to `"202510210000"`, and
a failed fetch on 2025-10-21 resolves to the fallback `"202510210000"`. -/
theorem getLatestModelrun_spec_witness :
    "2025-10-21T00:00:00Z" ∈ ["2025-10-20T12:00:00Z", "2025-10-21T00:00:00Z"] ∧
    getLatestModelrun (.ok (some ["2025-10-20T12:00:00Z", "2025-10-21T00:00:00Z"])) 2025 10 21 =
      "202510210000" ∧
    getLatestModelrun .fetchError 2025 10 21 = "202510210000" :=
  ⟨by decide,
    (getLatestModelrun_spec ["2025-10-20T12:00:00Z", "2025-10-21T00:00:00Z"]
      "2025-10-21T00:00:00Z" 2025 10 21 (by decide) (by decide)).1.trans (by decide),
    ((getLatestModelrun_spec ["2025-10-20T12:00:00Z", "2025-10-21T00:00:00Z"]
      "2025-10-21T00:00:00Z" 2025 10 21 (by decide) (by decide)).2.1).trans (by decide)⟩

/-! ### Layer-cache and controller lemmas -/

@[simp]
theorem putLayer_self (f : String → Option LayerHandle) (key : String) (h : LayerHandle) :
    putLayer f key h key = some h := by
  simp [putLayer]

theorem putLayer_other (f : String → Option LayerHandle) (key : String) (h : LayerHandle)
    (k : String) (hk : k ≠ key) : putLayer f key h k = f k := by
  simp [putLayer, hk]

theorem ensureArr_layersMag (st : ViewerState) (key : String) :
    (ensureArr st key).layersMag = st.layersMag := by
  unfold ensureArr
  split <;> rfl

theorem mountArr_layersMag (st : ViewerState) (key : String) :
    (mountArr st key).layersMag = st.layersMag := by
  unfold mountArr
  split
  · split <;> rfl
  · rfl

theorem ensureLayers_layersMag (st : ViewerState) (key : String) :
    (ensureLayers st key).layersMag =
      putLayer st.layersMag key
        ⟨((st.layersMag key).map LayerHandle.opacity).getD (1 / 1000), true⟩ := by
  have harr : (ensureLayers st key).layersMag = (mountMag (ensureMag st key) key).layersMag := by
    unfold ensureLayers
    split
    · rw [mountArr_layersMag, ensureArr_layersMag]
    · rfl
  rw [harr]
  cases hm : st.layersMag key with
  | none =>
      simp only [ensureMag, hm, Option.isNone_none, if_true]
      simp only [mountMag, putLayer_self]
      funext k
      by_cases hk : k = key
      · subst hk
        simp [putLayer]
      · simp [putLayer, hk]
  | some h0 =>
      simp only [ensureMag, hm, Option.isNone_some, Bool.false_eq_true, if_false]
      simp only [mountMag, hm]
      cases hmt : h0.mounted with
      | true =>
          simp only [if_true]
          funext k
          by_cases hk : k = key
          · subst hk
            simp [putLayer, hm, ← hmt]
          · simp [putLayer, hk]
      | false =>
          simp only [Bool.false_eq_true, if_false]
          funext k
          by_cases hk : k = key
          · subst hk
            simp [putLayer, hm]
          · simp [putLayer, hk]

@[simp]
theorem ensureMag_timestamps (st : ViewerState) (key : String) :
    (ensureMag st key).timestamps = st.timestamps := by
  unfold ensureMag
  split <;> rfl

@[simp]
theorem ensureMag_animationPosition (st : ViewerState) (key : String) :
    (ensureMag st key).animationPosition = st.animationPosition := by
  unfold ensureMag
  split <;> rfl

@[simp]
theorem ensureMag_opacity (st : ViewerState) (key : String) :
    (ensureMag st key).opacity = st.opacity := by
  unfold ensureMag
  split <;> rfl

@[simp]
theorem ensureMag_showArrows (st : ViewerState) (key : String) :
    (ensureMag st key).showArrows = st.showArrows := by
  unfold ensureMag
  split <;> rfl

@[simp]
theorem ensureMag_arrowsOpacity (st : ViewerState) (key : String) :
    (ensureMag st key).arrowsOpacity = st.arrowsOpacity := by
  unfold ensureMag
  split <;> rfl

@[simp]
theorem ensureMag_layersArr (st : ViewerState) (key : String) :
    (ensureMag st key).layersArr = st.layersArr := by
  unfold ensureMag
  split <;> rfl

@[simp]
theorem mountMag_timestamps (st : ViewerState) (key : String) :
    (mountMag st key).timestamps = st.timestamps := by
  unfold mountMag
  repeat' split
  all_goals rfl

@[simp]
theorem mountMag_animationPosition (st : ViewerState) (key : String) :
    (mountMag st key).animationPosition = st.animationPosition := by
  unfold mountMag
  repeat' split
  all_goals rfl

@[simp]
theorem mountMag_opacity (st : ViewerState) (key : String) :
    (mountMag st key).opacity = st.opacity := by
  unfold mountMag
  repeat' split
  all_goals rfl

@[simp]
theorem mountMag_showArrows (st : ViewerState) (key : String) :
    (mountMag st key).showArrows = st.showArrows := by
  unfold mountMag
  repeat' split
  all_goals rfl

@[simp]
theorem mountMag_arrowsOpacity (st : ViewerState) (key : String) :
    (mountMag st key).arrowsOpacity = st.arrowsOpacity := by
  unfold mountMag
  repeat' split
  all_goals rfl

@[simp]
theorem mountMag_layersArr (st : ViewerState) (key : String) :
    (mountMag st key).layersArr = st.layersArr := by
  unfold mountMag
  repeat' split
  all_goals rfl

@[simp]
theorem ensureArr_timestamps (st : ViewerState) (key : String) :
    (ensureArr st key).timestamps = st.timestamps := by
  unfold ensureArr
  split <;> rfl

@[simp]
theorem ensureArr_animationPosition (st : ViewerState) (key : String) :
    (ensureArr st key).animationPosition = st.animationPosition := by
  unfold ensureArr
  split <;> rfl

@[simp]
theorem ensureArr_opacity (st : ViewerState) (key : String) :
    (ensureArr st key).opacity = st.opacity := by
  unfold ensureArr
  split <;> rfl

@[simp]
theorem ensureArr_showArrows (st : ViewerState) (key : String) :
    (ensureArr st key).showArrows = st.showArrows := by
  unfold ensureArr
  split <;> rfl

@[simp]
theorem ensureArr_arrowsOpacity (st : ViewerState) (key : String) :
    (ensureArr st key).arrowsOpacity = st.arrowsOpacity := by
  unfold ensureArr
  split <;> rfl

@[simp]
theorem mountArr_timestamps (st : ViewerState) (key : String) :
    (mountArr st key).timestamps = st.timestamps := by
  unfold mountArr
  repeat' split
  all_goals rfl

@[simp]
theorem mountArr_animationPosition (st : ViewerState) (key : String) :
    (mountArr st key).animationPosition = st.animationPosition := by
  unfold mountArr
  repeat' split
  all_goals rfl

@[simp]
theorem mountArr_opacity (st : ViewerState) (key : String) :
    (mountArr st key).opacity = st.opacity := by
  unfold mountArr
  repeat' split
  all_goals rfl

@[simp]
theorem mountArr_showArrows (st : ViewerState) (key : String) :
    (mountArr st key).showArrows = st.showArrows := by
  unfold mountArr
  repeat' split
  all_goals rfl

@[simp]
theorem mountArr_arrowsOpacity (st : ViewerState) (key : String) :
    (mountArr st key).arrowsOpacity = st.arrowsOpacity := by
  unfold mountArr
  repeat' split
  all_goals rfl

theorem ensureLayers_proj (st : ViewerState) (key : String) :
    (ensureLayers st key).timestamps = st.timestamps ∧
    (ensureLayers st key).animationPosition = st.animationPosition ∧
    (ensureLayers st key).opacity = st.opacity ∧
    (ensureLayers st key).showArrows = st.showArrows ∧
    (ensureLayers st key).arrowsOpacity = st.arrowsOpacity := by
  unfold ensureLayers
  split_ifs <;> simp

theorem mountArr_ensureArr_layersArr (st : ViewerState) (key : String) :
    (mountArr (ensureArr st key) key).layersArr =
      putLayer st.layersArr key
        ⟨((st.layersArr key).map LayerHandle.opacity).getD st.arrowsOpacity, true⟩ := by
  cases hm : st.layersArr key with
  | none =>
      simp only [ensureArr, hm, Option.isNone_none, if_true]
      simp only [mountArr, putLayer_self]
      funext k
      by_cases hk : k = key
      · subst hk
        simp [putLayer]
      · simp [putLayer, hk]
  | some h0 =>
      simp only [ensureArr, hm, Option.isNone_some, Bool.false_eq_true, if_false]
      simp only [mountArr, hm]
      cases hmt : h0.mounted with
      | true =>
          simp only [if_true]
          funext k
          by_cases hk : k = key
          · subst hk
            simp [putLayer, hm, ← hmt]
          · simp [putLayer, hk]
      | false =>
          simp only [Bool.false_eq_true, if_false]
          funext k
          by_cases hk : k = key
          · subst hk
            simp [putLayer, hm]
          · simp [putLayer, hk]

theorem magPhase_layersArr (st : ViewerState) (key : String) :
    (mountMag (ensureMag st key) key).layersArr = st.layersArr := by
  simp

theorem magPhase_arrowsOpacity (st : ViewerState) (key : String) :
    (mountMag (ensureMag st key) key).arrowsOpacity = st.arrowsOpacity := by
  simp

theorem ensureLayers_layersArr (st : ViewerState) (key : String) :
    (ensureLayers st key).layersArr =
      if st.showArrows then
        putLayer st.layersArr key
          ⟨((st.layersArr key).map LayerHandle.opacity).getD st.arrowsOpacity, true⟩
      else st.layersArr := by
  unfold ensureLayers
  split_ifs with hsa
  · rw [mountArr_ensureArr_layersArr, magPhase_layersArr, magPhase_arrowsOpacity]
  · rw [magPhase_layersArr]

theorem fadeOutMag_layersMag_of_some (st : ViewerState) (key : String) (h0 : LayerHandle)
    (hm : st.layersMag key = some h0) :
    (fadeOutMag st key).layersMag = putLayer st.layersMag key ⟨0, h0.mounted⟩ := by
  simp only [fadeOutMag, hm]

theorem fadeOutMag_proj (st : ViewerState) (key : String) :
    (fadeOutMag st key).timestamps = st.timestamps ∧
    (fadeOutMag st key).animationPosition = st.animationPosition ∧
    (fadeOutMag st key).opacity = st.opacity ∧
    (fadeOutMag st key).layersArr = st.layersArr := by
  unfold fadeOutMag
  split <;> simp

theorem setVisibleMag_layersMag_of_some (st : ViewerState) (key : String) (h0 : LayerHandle)
    (hm : st.layersMag key = some h0) :
    (setVisibleMag st key).layersMag = putLayer st.layersMag key ⟨st.opacity, h0.mounted⟩ := by
  simp only [setVisibleMag, hm]

theorem setVisibleMag_proj (st : ViewerState) (key : String) :
    (setVisibleMag st key).timestamps = st.timestamps ∧
    (setVisibleMag st key).animationPosition = st.animationPosition ∧
    (setVisibleMag st key).opacity = st.opacity ∧
    (setVisibleMag st key).layersArr = st.layersArr := by
  unfold setVisibleMag
  split <;> simp

theorem changePosition_nil (st : ViewerState) (pos : Int) (b : Bool)
    (h : st.timestamps.length = 0) : changePosition st pos b = st := by
  simp [changePosition, h]

theorem changePosition_preload_eq (st : ViewerState) (pos : Int)
    (h : st.timestamps.length ≠ 0) :
    changePosition st pos true = ensureLayers st (targetKeyOf st pos) := by
  simp [changePosition, h, targetKeyOf]

theorem changePosition_commit_eq (st : ViewerState) (k : Int) (ck : String)
    (hlen : st.timestamps.length ≠ 0)
    (hprev : st.timestamps[st.animationPosition]? = some ck) (hck : ck ≠ "") :
    changePosition st k false =
      setVisibleMag
        (fadeOutMag
          { ensureLayers st (targetKeyOf st k) with
              animationPosition := (k.emod (st.timestamps.length : Int)).toNat } ck)
        (targetKeyOf st k) := by
  simp only [changePosition, if_neg hlen, hprev, targetKeyOf, Bool.false_eq_true, if_false]
  rw [if_neg hck]

/-- The stored position after a non-preload `changePosition`. -/
theorem changePosition_commit_animationPosition (st : ViewerState) (k : Int)
    (hlen : st.timestamps.length ≠ 0) :
    (changePosition st k false).animationPosition =
      (k.emod (st.timestamps.length : Int)).toNat := by
  simp only [changePosition, if_neg hlen, Bool.false_eq_true, if_false]
  rw [(setVisibleMag_proj _ _).2.1]
  split
  · split_ifs
    · rfl
    · rw [(fadeOutMag_proj _ _).2.1]
  · rfl

/-- C1: with a non-empty frame sequence of length `N`, a committing
`changePosition(k)` stores exactly `((k mod N) + N) mod N`, which lies in
`[0, N)`. -/
theorem changePosition_wraps (st : ViewerState) (k : Int) (N : Nat)
    (hN : st.timestamps.length = N) (h1 : 1 ≤ N) :
    ((changePosition st k false).animationPosition : Int) = (k % (N : Int) + N) % N ∧
    0 ≤ (k % (N : Int) + N) % N ∧ (k % (N : Int) + N) % N < N := by
  subst hN
  have hlen : st.timestamps.length ≠ 0 := by omega
  have hNz : ((st.timestamps.length : Int)) ≠ 0 := by
    simpa using hlen
  have hNpos : (0 : Int) < (st.timestamps.length : Int) := by
    exact_mod_cast h1
  have hfold : (k % (st.timestamps.length : Int) + st.timestamps.length) %
      (st.timestamps.length : Int) = k % (st.timestamps.length : Int) := by
    have h2 := Int.add_mul_emod_self_left (a := k % (st.timestamps.length : Int))
      (b := (st.timestamps.length : Int)) (c := 1)
    simp only [mul_one] at h2
    rw [h2]
    exact Int.emod_emod_of_dvd k dvd_rfl
  refine ⟨?_, ?_, ?_⟩
  · rw [changePosition_commit_animationPosition st k hlen, hfold]
    exact Int.toNat_of_nonneg (Int.emod_nonneg k hNz)
  · rw [hfold]
    exact Int.emod_nonneg k hNz
  · rw [hfold]
    exact Int.emod_lt_of_pos k hNpos

/-- C1 witness: wrapping `-5` in a length-3 sequence stores position 1. -/
theorem changePosition_wraps_witness :
    stTriple.timestamps.length = 3 ∧ (1 : Nat) ≤ 3 ∧
      ((changePosition stTriple (-5) false).animationPosition : Int) =
        ((-5 : Int) % 3 + 3) % 3 :=
  ⟨rfl, by decide, (changePosition_wraps stTriple (-5) 3 rfl (by decide)).1⟩

/-- C3: a `preloadOnly` call never changes the stored position, the frame
sequence, or the opacity of any cached layer; every key other than the
wrapped target's key is left completely untouched (the target key's layers
are only created/mounted if absent). -/
theorem changePosition_preloadOnly (st : ViewerState) (k : Int) :
    (changePosition st k true).animationPosition = st.animationPosition ∧
    (changePosition st k true).timestamps = st.timestamps ∧
    (∀ key h0, st.layersMag key = some h0 →
      ∃ h2, (changePosition st k true).layersMag key = some h2 ∧ h2.opacity = h0.opacity) ∧
    (∀ key h0, st.layersArr key = some h0 →
      ∃ h2, (changePosition st k true).layersArr key = some h2 ∧ h2.opacity = h0.opacity) ∧
    (∀ key, key ≠ targetKeyOf st k →
      (changePosition st k true).layersMag key = st.layersMag key ∧
      (changePosition st k true).layersArr key = st.layersArr key) := by
  by_cases hlen : st.timestamps.length = 0
  · rw [changePosition_nil st k true hlen]
    exact ⟨rfl, rfl, fun key h0 hm => ⟨h0, hm, rfl⟩, fun key h0 hm => ⟨h0, hm, rfl⟩,
      fun key _ => ⟨rfl, rfl⟩⟩
  · rw [changePosition_preload_eq st k hlen]
    set tk := targetKeyOf st k with htk
    refine ⟨(ensureLayers_proj st tk).2.1, (ensureLayers_proj st tk).1, ?_, ?_, ?_⟩
    · intro key h0 hm
      rw [ensureLayers_layersMag]
      by_cases hk : key = tk
      · subst hk
        exact ⟨_, putLayer_self _ _ _, by simp [hm]⟩
      · rw [putLayer_other _ _ _ _ hk]
        exact ⟨h0, hm, rfl⟩
    · intro key h0 hm
      rw [ensureLayers_layersArr]
      by_cases hsa : st.showArrows
      · rw [if_pos hsa]
        by_cases hk : key = tk
        · subst hk
          exact ⟨_, putLayer_self _ _ _, by simp [hm]⟩
        · rw [putLayer_other _ _ _ _ hk]
          exact ⟨h0, hm, rfl⟩
      · rw [if_neg hsa]
        exact ⟨h0, hm, rfl⟩
    · intro key hk
      constructor
      · rw [ensureLayers_layersMag, putLayer_other _ _ _ _ hk]
      · rw [ensureLayers_layersArr]
        by_cases hsa : st.showArrows
        · rw [if_pos hsa, putLayer_other _ _ _ _ hk]
        · rw [if_neg hsa]

/-- C3 witness: preloading index 1 from `stTriple` keeps the position and
the (empty) cache entry of the non-target key "A". -/
theorem changePosition_preloadOnly_witness :
    (changePosition stTriple 1 true).animationPosition = stTriple.animationPosition ∧
    (changePosition stTriple 1 true).layersMag "A" = stTriple.layersMag "A" :=
  ⟨(changePosition_preloadOnly stTriple 1).1,
    ((changePosition_preloadOnly stTriple 1).2.2.2.2 "A" (by decide)).1⟩

/-- C9: with an empty frame sequence, `changePosition` (in both modes),
`showFrame` and `_preload` all return the state unchanged. -/
theorem emptySequence_noop (st : ViewerState) (k : Int) (b : Bool)
    (h : st.timestamps = []) :
    changePosition st k b = st ∧ showFrame st k = st ∧ preload st k = st := by
  have h0 : st.timestamps.length = 0 := by simp [h]
  have hc : ∀ (p : Int) (b2 : Bool), changePosition st p b2 = st := fun p b2 =>
    changePosition_nil st p b2 h0
  refine ⟨hc k b, ?_, hc k true⟩
  simp only [showFrame, preload, hc]

/-- C9 witness: the no-op on a concrete empty-sequence state. -/
theorem emptySequence_noop_witness :
    changePosition stEmpty 7 false = stEmpty ∧ showFrame stEmpty 7 = stEmpty ∧
      preload stEmpty 7 = stEmpty :=
  ⟨(emptySequence_noop stEmpty 7 false rfl).1, (emptySequence_noop stEmpty 7 false rfl).2.1,
    (emptySequence_noop stEmpty 7 false rfl).2.2⟩

/-- C8: REFUTED as stated.  From `stTriple` (position 0), `showFrame 0` is
a stationary call: the spec claims the prefetch direction defaults to
forward (+1), i.e. frame index 1 ("B") would be preloaded, but the code
computes `0 > 0 ? 1 : -1 = -1` and preloads index −1, which wraps to "C". -/
theorem showFrame_direction_counterexample :
    showFrame stTriple 0 ≠ showFrameSpecClaimed stTriple 0 := by
  intro h
  have e1 : ((showFrame stTriple 0).layersMag "B").isSome = false := rfl
  have e2 : ((showFrameSpecClaimed stTriple 0).layersMag "B").isSome = true := rfl
  have h3 : (false : Bool) = true := by
    rw [← e1, ← e2]
    exact congrArg (fun s => (s.layersMag "B").isSome) h
  exact Bool.noConfusion h3

/-- C8 (amended): `showFrame` equals the spec composition — commit via
`changePosition(target, false)` first, then prefetch
`changePosition(target + dir, true)` — with direction `+1` exactly when
the target is strictly ahead of the current position and `-1` otherwise,
including the stationary case (backward, not forward). -/
theorem showFrame_eq_spec_amended (st : ViewerState) (nextPos : Int) :
    showFrame st nextPos = showFrameSpecAmended st nextPos := by
  simp only [showFrame, showFrameSpecAmended, preload, sub_pos]

/-- C10: REFUTED as stated.  `_keyToMs` does not reject short keys: the
9-character malformed key "190001010" silently decodes to an instant — in
fact the same instant as the well-formed key "190001010000"
(1900-01-01T00:00Z, −2208988800000 ms), because the missing slices coerce
to zero. -/
theorem keyToMs_short_key_not_rejected :
    ("190001010".length < 12) ∧ keyToMs "190001010" = keyToMs "190001010000" ∧
      keyToMs "190001010000" = some (-2208988800000) :=
  ⟨by decide, by decide, by decide⟩

/-- C10 (amended): the under-12-characters rejection exists only in the
display decoder: `parseLabel` returns the empty label for every key
shorter than 12 characters, while the instant decoder `_keyToMs` performs
no length check and decodes a short digit-only key to an instant. -/
theorem shortKey_reject_only_in_parseLabel :
    (∀ k : String, k.length < 12 → parseLabel k = "") ∧
      keyToMs "190001010" = some (-2208988800000) := by
  constructor
  · intro k hk
    unfold parseLabel
    rw [if_neg (by omega)]
  · decide

/-- C10 witness: the display decoder rejects a concrete short key. -/
theorem shortKey_reject_witness :
    ("ab".length < 12) ∧ parseLabel "ab" = "" :=
  ⟨by decide, shortKey_reject_only_in_parseLabel.1 "ab" (by decide)⟩

/-- C2: REFUTED as stated.  With a single frame ("A" visible at opacity
1/2), `showFrame 1` has target index 1 ≠ previous position 0, but the
index wraps back onto position 0: the previously visible layer ends at the
configured opacity 1/2, not 0, contradicting the claim for every
`showFrame(i)` with `i` different from the previous position. -/
theorem showFrame_visibility_counterexample :
    (1 : Int) ≠ (stSingle.animationPosition : Int) ∧
    targetKeyOf stSingle 1 = currentKey stSingle ∧
    magOpacity (showFrame stSingle 1) (currentKey stSingle) = some (1 / 2) ∧
    ((1 : ℚ) / 2) ≠ 0 :=
  ⟨by decide, rfl, rfl, by norm_num⟩

/-- Pointwise description of the magnitude cache after a committing
`changePosition` in steady state: the target layer is at the configured
opacity, the previously visible layer at 0, everything else untouched. -/
theorem changePosition_commit_layersMag (st : ViewerState) (i : Int) (g : LayerHandle)
    (hpos : st.animationPosition < st.timestamps.length)
    (hcur : st.layersMag (currentKey st) = some g)
    (hck_ne : currentKey st ≠ "")
    (htk_ne_ck : targetKeyOf st i ≠ currentKey st) :
    ∀ key, (changePosition st i false).layersMag key =
      if key = targetKeyOf st i then some ⟨st.opacity, true⟩
      else if key = currentKey st then some ⟨0, g.mounted⟩
      else st.layersMag key := by
  have hlen : st.timestamps.length ≠ 0 := by omega
  have hcke : st.timestamps[st.animationPosition]? = some (currentKey st) := by
    unfold currentKey
    rw [List.getElem?_eq_getElem hpos]
    rfl
  have hcommit := changePosition_commit_eq st i (currentKey st) hlen hcke hck_ne
  have hEmag : (ensureLayers st (targetKeyOf st i)).layersMag =
      putLayer st.layersMag (targetKeyOf st i)
        ⟨((st.layersMag (targetKeyOf st i)).map LayerHandle.opacity).getD (1 / 1000), true⟩ :=
    ensureLayers_layersMag st (targetKeyOf st i)
  have hRck : (({ ensureLayers st (targetKeyOf st i) with
      animationPosition := (i.emod (st.timestamps.length : Int)).toNat } :
        ViewerState)).layersMag (currentKey st) = some g := by
    show (ensureLayers st (targetKeyOf st i)).layersMag (currentKey st) = some g
    rw [hEmag, putLayer_other _ _ _ _ (Ne.symm (Ne.symm htk_ne_ck).symm), hcur]
  have hF := fadeOutMag_layersMag_of_some _ (currentKey st) g hRck
  have hFtk : (fadeOutMag
      ({ ensureLayers st (targetKeyOf st i) with
          animationPosition := (i.emod (st.timestamps.length : Int)).toNat } : ViewerState)
      (currentKey st)).layersMag (targetKeyOf st i) =
      some ⟨((st.layersMag (targetKeyOf st i)).map LayerHandle.opacity).getD (1 / 1000),
        true⟩ := by
    rw [hF, putLayer_other _ _ _ _ htk_ne_ck]
    show (ensureLayers st (targetKeyOf st i)).layersMag (targetKeyOf st i) = _
    rw [hEmag, putLayer_self]
  have hV := setVisibleMag_layersMag_of_some _ (targetKeyOf st i) _ hFtk
  have hFop : (fadeOutMag
      ({ ensureLayers st (targetKeyOf st i) with
          animationPosition := (i.emod (st.timestamps.length : Int)).toNat } : ViewerState)
      (currentKey st)).opacity = st.opacity := by
    rw [(fadeOutMag_proj _ _).2.2.1]
    show (ensureLayers st (targetKeyOf st i)).opacity = st.opacity
    exact (ensureLayers_proj st (targetKeyOf st i)).2.2.1
  intro key
  rw [hcommit, hV, hFop]
  by_cases h1 : key = targetKeyOf st i
  · subst h1
    rw [if_pos rfl, putLayer_self]
  · rw [if_neg h1, putLayer_other _ _ _ _ h1, hF]
    by_cases h2 : key = currentKey st
    · subst h2
      rw [if_pos rfl, putLayer_self]
    · rw [if_neg h2, putLayer_other _ _ _ _ h2]
      show (ensureLayers st (targetKeyOf st i)).layersMag key = st.layersMag key
      rw [hEmag, putLayer_other _ _ _ _ h1]

/-- C2 (amended): after `showFrame(i)` where `i` wraps to an index
different from the previous position, the target's magnitude layer is at
the configured opacity, the previously visible layer's opacity is 0, every
other cached magnitude layer sits at an effectively-zero opacity
(at most the 0.001 creation value, hence below the configured opacity — so
exactly one layer is at the non-zero configured opacity), and every
magnitude layer that was mounted stays mounted. -/
theorem showFrame_visibility (st : ViewerState) (i : Int) (g : LayerHandle)
    (hnodup : st.timestamps.Nodup)
    (hpos : st.animationPosition < st.timestamps.length)
    (hne : "" ∉ st.timestamps)
    (hcur : st.layersMag (currentKey st) = some g)
    (hinv : ∀ key h0, st.layersMag key = some h0 → key ≠ currentKey st →
      h0.opacity ≤ 1 / 1000)
    (hop : 1 / 1000 < st.opacity)
    (hwrap : (i.emod (st.timestamps.length : Int)).toNat ≠ st.animationPosition) :
    magOpacity (showFrame st i) (targetKeyOf st i) = some st.opacity ∧
    magOpacity (showFrame st i) (currentKey st) = some 0 ∧
    (∀ key h2, (showFrame st i).layersMag key = some h2 → key ≠ targetKeyOf st i →
      h2.opacity ≤ 1 / 1000 ∧ h2.opacity < st.opacity) ∧
    (∀ key h0, st.layersMag key = some h0 → h0.mounted = true →
      ∃ h2, (showFrame st i).layersMag key = some h2 ∧ h2.mounted = true) := by
  have hlen : st.timestamps.length ≠ 0 := by omega
  have hNz : ((st.timestamps.length : Int)) ≠ 0 := by exact_mod_cast hlen
  have hNpos : (0 : Int) < (st.timestamps.length : Int) := by
    exact_mod_cast Nat.pos_of_ne_zero hlen
  have hpN : (i.emod (st.timestamps.length : Int)).toNat < st.timestamps.length := by
    have e1 := Int.emod_nonneg i hNz
    have e2 := Int.emod_lt_of_pos i hNpos
    have e3 : i.emod (st.timestamps.length : Int) = i % (st.timestamps.length : Int) := rfl
    omega
  have hckv : currentKey st = st.timestamps[st.animationPosition] := by
    unfold currentKey
    rw [List.getElem?_eq_getElem hpos]
    rfl
  have htkv : targetKeyOf st i =
      st.timestamps[(i.emod (st.timestamps.length : Int)).toNat] := by
    unfold targetKeyOf
    rw [List.getElem?_eq_getElem hpN]
    rfl
  have htk_ne_ck : targetKeyOf st i ≠ currentKey st := by
    rw [htkv, hckv]
    intro hq
    exact hwrap (hnodup.getElem_inj_iff.mp hq)
  have htk_mem : targetKeyOf st i ∈ st.timestamps := by
    rw [htkv]
    exact List.getElem_mem _
  have hck_mem : currentKey st ∈ st.timestamps := by
    rw [hckv]
    exact List.getElem_mem _
  have hck_ne : currentKey st ≠ "" := fun hq => hne (hq ▸ hck_mem)
  have hst1 := changePosition_commit_layersMag st i g hpos hcur hck_ne htk_ne_ck
  have hst1_ts : (changePosition st i false).timestamps = st.timestamps := by
    have hcke : st.timestamps[st.animationPosition]? = some (currentKey st) := by
      unfold currentKey
      rw [List.getElem?_eq_getElem hpos]
      rfl
    rw [changePosition_commit_eq st i (currentKey st) hlen hcke hck_ne,
      (setVisibleMag_proj _ _).1, (fadeOutMag_proj _ _).1]
    show (ensureLayers st (targetKeyOf st i)).timestamps = st.timestamps
    exact (ensureLayers_proj st (targetKeyOf st i)).1
  have hshow : showFrame st i = changePosition (changePosition st i false)
      (i + (if 0 < i - (st.animationPosition : Int) then 1 else -1)) true := rfl
  have hpre : changePosition (changePosition st i false)
      (i + (if 0 < i - (st.animationPosition : Int) then 1 else -1)) true =
      ensureLayers (changePosition st i false)
        (targetKeyOf (changePosition st i false)
          (i + (if 0 < i - (st.animationPosition : Int) then 1 else -1))) :=
    changePosition_preload_eq _ _ (by rw [hst1_ts]; exact hlen)
  have hfin : ∀ key, (showFrame st i).layersMag key =
      putLayer (changePosition st i false).layersMag
        (targetKeyOf (changePosition st i false)
          (i + (if 0 < i - (st.animationPosition : Int) then 1 else -1)))
        ⟨(((changePosition st i false).layersMag
            (targetKeyOf (changePosition st i false)
              (i + (if 0 < i - (st.animationPosition : Int) then 1 else -1)))).map
            LayerHandle.opacity).getD (1 / 1000), true⟩ key := by
    intro key
    rw [hshow, hpre, ensureLayers_layersMag]
  generalize ht2 : targetKeyOf (changePosition st i false)
      (i + (if 0 < i - (st.animationPosition : Int) then 1 else -1)) = t2 at hfin
  have hv_tk : (changePosition st i false).layersMag (targetKeyOf st i) =
      some ⟨st.opacity, true⟩ := by
    rw [hst1, if_pos rfl]
  have hv_ck : (changePosition st i false).layersMag (currentKey st) =
      some ⟨0, g.mounted⟩ := by
    rw [hst1, if_neg (Ne.symm htk_ne_ck), if_pos rfl]
  refine ⟨?_, ?_, ?_, ?_⟩
  · show ((showFrame st i).layersMag (targetKeyOf st i)).map LayerHandle.opacity =
      some st.opacity
    rw [hfin]
    by_cases h2 : targetKeyOf st i = t2
    · rw [← h2, putLayer_self, hv_tk]
      rfl
    · rw [putLayer_other _ _ _ _ h2, hv_tk]
      rfl
  · show ((showFrame st i).layersMag (currentKey st)).map LayerHandle.opacity = some 0
    rw [hfin]
    by_cases h2 : currentKey st = t2
    · rw [← h2, putLayer_self, hv_ck]
      rfl
    · rw [putLayer_other _ _ _ _ h2, hv_ck]
      rfl
  · intro key h2 hmem hkey
    rw [hfin] at hmem
    by_cases hk2 : key = t2
    · rw [← hk2, putLayer_self] at hmem
      have hop2 : h2.opacity = (((changePosition st i false).layersMag key).map
          LayerHandle.opacity).getD (1 / 1000) := by
        rw [← Option.some.inj hmem]
      have hle : h2.opacity ≤ 1 / 1000 := by
        rw [hop2, hst1, if_neg hkey]
        by_cases hkc : key = currentKey st
        · rw [if_pos hkc]
          norm_num
        · rw [if_neg hkc]
          cases hm0 : st.layersMag key with
          | none => simp
          | some h0 =>
              have hred : ((some h0).map LayerHandle.opacity).getD (1 / 1000) =
                  h0.opacity := rfl
              rw [hred]
              exact hinv key h0 hm0 hkc
      exact ⟨hle, lt_of_le_of_lt hle hop⟩
    · rw [putLayer_other _ _ _ _ hk2, hst1, if_neg hkey] at hmem
      by_cases hkc : key = currentKey st
      · rw [if_pos hkc] at hmem
        have h20 : h2.opacity = 0 := by
          rw [← Option.some.inj hmem]
        have hle : h2.opacity ≤ 1 / 1000 := by
          rw [h20]
          norm_num
        exact ⟨hle, lt_of_le_of_lt hle hop⟩
      · rw [if_neg hkc] at hmem
        have hle := hinv key h2 hmem hkc
        exact ⟨hle, lt_of_le_of_lt hle hop⟩
  · intro key h0 hm0 hmt
    rw [hfin]
    by_cases hk2 : key = t2
    · rw [← hk2, putLayer_self]
      exact ⟨_, rfl, rfl⟩
    · rw [putLayer_other _ _ _ _ hk2, hst1]
      by_cases hkt : key = targetKeyOf st i
      · rw [if_pos hkt]
        exact ⟨_, rfl, rfl⟩
      · rw [if_neg hkt]
        by_cases hkc : key = currentKey st
        · rw [if_pos hkc]
          refine ⟨_, rfl, ?_⟩
          have hg : g = h0 := by
            rw [hkc] at hm0
            exact Option.some.inj (hcur.symm.trans hm0)
          rw [hg]
          exact hmt
        · rw [if_neg hkc, hm0]
          exact ⟨h0, rfl, hmt⟩

/-- C2 witness: from the two-frame steady state `stPair` (frame "A"
visible at opacity 1/2), `showFrame 1` makes "B" visible at 1/2 and fades
"A" to 0. -/
theorem showFrame_visibility_witness :
    stPair.timestamps.Nodup ∧
    ((1 : Int).emod (stPair.timestamps.length : Int)).toNat ≠ stPair.animationPosition ∧
    magOpacity (showFrame stPair 1) (targetKeyOf stPair 1) = some stPair.opacity ∧
    magOpacity (showFrame stPair 1) (currentKey stPair) = some 0 := by
  have h := showFrame_visibility stPair 1 ⟨1 / 2, true⟩ (by decide) (by decide) (by decide)
    rfl
    (by
      intro key h0 hm hk
      by_cases hA : key = "A"
      · exact absurd hA hk
      · simp only [stPair] at hm
        rw [if_neg hA] at hm
        cases hm)
    (by
      show (1 : ℚ) / 1000 < 1 / 2
      norm_num)
    (by decide)
  exact ⟨by decide, by decide, h.1, h.2.1⟩

end Inaflows
